import Mathlib

/-!
Verification development for the task-management-api repository.

The backend service (FastAPI, `app/` in the repository layout) is described
by the specification; its GUI client is in `task-management-gui/`.  The
backend's query engine, token service and completion transition are
modelled from the specification; the GUI's `fetchTasks` parameter
construction, `TaskForm.handleSubmit` payload normalisation and
`TaskList.isOverdue` are embedded from the JavaScript source.
-/

namespace TM

/-- Task status enumeration: `todo`, `in_progress`, `done`. -/
inductive Status where
  | todo
  | in_progress
  | done
deriving DecidableEq

/-- Task priority enumeration: `low`, `medium`, `high`. -/
inductive Priority where
  | low
  | medium
  | high
deriving DecidableEq

/-- A task row.  Timestamps are modelled as integers (epoch instants);
optional columns are `Option`. -/
structure Task where
  id : Nat
  title : String
  description : Option String
  status : Status
  priority : Priority
  due_date : Option Int
  tags : List String
  project_id : Option Nat
  owner : Nat
  created_at : Int
  updated_at : Int
deriving DecidableEq

/-- Sort field of the query engine: `created_at`, `due_date` or `priority`. -/
inductive SortBy where
  | created_at
  | due_date
  | priority
deriving DecidableEq

/-- Sort direction. -/
inductive SortOrder where
  | asc
  | desc
deriving DecidableEq

/-- Modelled from the spec: the optional-field criteria record of
`TaskQueryEngine.query` (§4.4).  `project_id` is doubly optional so that
"unassigned" is expressible distinctly from "any"; an empty `tags` list is
no constraint; `overdue = false` is no constraint. -/
structure Criteria where
  status : Option Status
  priority : Option Priority
  project_id : Option (Option Nat)
  tags : List String
  overdue : Bool
  search : Option String
  sort_by : SortBy
  sort_order : SortOrder

/-- The criteria record with every field absent and the default ordering
`created_at` descending. -/
def noCriteria : Criteria :=
  { status := none, priority := none, project_id := none, tags := [],
    overdue := false, search := none,
    sort_by := SortBy.created_at, sort_order := SortOrder.desc }

/-- Semantic rank of a priority: low < medium < high. -/
def priorityRank : Priority → Int
  | Priority.low => 0
  | Priority.medium => 1
  | Priority.high => 2

/-- Direction adjustment of a sort key component. -/
def dirInt : SortOrder → Int → Int
  | SortOrder.asc, x => x
  | SortOrder.desc, x => -x

/-- Modelled from the spec: sort key of a task.  The first component forces
tasks with a null due date after all dated tasks regardless of direction;
the second is the direction-adjusted field value. -/
def sortKey (sb : SortBy) (o : SortOrder) (t : Task) : Nat × Int :=
  match sb with
  | SortBy.created_at => (0, dirInt o t.created_at)
  | SortBy.priority => (0, dirInt o (priorityRank t.priority))
  | SortBy.due_date =>
      match t.due_date with
      | some d => (0, dirInt o d)
      | none => (1, 0)

/-- Lexicographic order on sort keys. -/
def keyLE (a b : Nat × Int) : Prop :=
  a.1 < b.1 ∨ (a.1 = b.1 ∧ a.2 ≤ b.2)

instance (a b : Nat × Int) : Decidable (keyLE a b) :=
  inferInstanceAs (Decidable (a.1 < b.1 ∨ (a.1 = b.1 ∧ a.2 ≤ b.2)))

/-- Task comparison used by the query engine's ordering stage. -/
def taskLE (sb : SortBy) (o : SortOrder) (a b : Task) : Prop :=
  keyLE (sortKey sb o a) (sortKey sb o b)

instance (sb : SortBy) (o : SortOrder) : DecidableRel (taskLE sb o) :=
  fun a b => inferInstanceAs (Decidable (keyLE (sortKey sb o a) (sortKey sb o b)))

instance (sb : SortBy) (o : SortOrder) : IsTotal Task (taskLE sb o) :=
  ⟨by
    intro a b
    unfold taskLE keyLE
    omega⟩

instance (sb : SortBy) (o : SortOrder) : IsTrans Task (taskLE sb o) :=
  ⟨by
    intro a b c hab hbc
    unfold taskLE keyLE at *
    omega⟩

/-- Lower-cased character list of a string (case-folding for search). -/
def lowerChars (s : String) : List Char :=
  s.data.map Char.toLower

/-- Substring test on character lists. -/
def listContains (needle : List Char) : List Char → Bool
  | [] => needle.isEmpty
  | c :: rest => needle.isPrefixOf (c :: rest) || listContains needle rest

/-- Case-insensitive substring match. -/
def containsCI (hay needle : String) : Bool :=
  listContains (lowerChars needle) (lowerChars hay)

/-- Modelled from the spec: status criterion — absent means no constraint,
present means exact match. -/
def statusMatch (c : Option Status) (t : Task) : Bool :=
  match c with
  | none => true
  | some s => decide (t.status = s)

/-- Modelled from the spec: priority criterion. -/
def priorityMatch (c : Option Priority) (t : Task) : Bool :=
  match c with
  | none => true
  | some p => decide (t.priority = p)

/-- Modelled from the spec: project criterion; `some none` selects
unassigned tasks, `some (some p)` selects tasks of project `p`. -/
def projectMatch (c : Option (Option Nat)) (t : Task) : Bool :=
  match c with
  | none => true
  | some p => decide (t.project_id = p)

/-- Modelled from the spec: conjunctive tag criterion — the task's tag set
must contain ALL listed tags. -/
def tagFilter (req : List String) (t : Task) : Bool :=
  req.all (fun tag => decide (tag ∈ t.tags))

/-- Modelled from the spec: a task is overdue when its due timestamp
exists and is strictly before the evaluation instant and its status is
not `done`. -/
def overdueTask (t : Task) (now : Int) : Bool :=
  match t.due_date with
  | none => false
  | some d => decide (d < now) && !(decide (t.status = Status.done))

/-- Modelled from the spec: overdue criterion — when `true`, restrict to
overdue tasks; otherwise no constraint. -/
def overdueMatch (c : Bool) (t : Task) (now : Int) : Bool :=
  if c then overdueTask t now else true

/-- Modelled from the spec: case-insensitive substring search against
title OR description. -/
def searchMatch (c : Option String) (t : Task) : Bool :=
  match c with
  | none => true
  | some q =>
      containsCI t.title q ||
        (match t.description with
         | none => false
         | some d => containsCI d q)

/-- Modelled from the spec: conjunction of all active criteria. -/
def taskMatches (c : Criteria) (now : Int) (t : Task) : Bool :=
  statusMatch c.status t && priorityMatch c.priority t &&
    projectMatch c.project_id t && tagFilter c.tags t &&
    overdueMatch c.overdue t now && searchMatch c.search t

/-- Modelled from the spec: `query(owner_id, criteria)` — filter the store
to the caller's own tasks satisfying every active criterion, then order by
the requested sort key (a deterministic sequence). -/
def query (owner : Nat) (c : Criteria) (now : Int) (ts : List Task) : List Task :=
  List.insertionSort (taskLE c.sort_by c.sort_order)
    (ts.filter (fun t => decide (t.owner = owner) && taskMatches c now t))

/-- Membership in a query result, unfolded. -/
theorem mem_query {owner : Nat} {c : Criteria} {now : Int} {ts : List Task} {t : Task} :
    t ∈ query owner c now ts ↔
      t ∈ ts ∧ t.owner = owner ∧ taskMatches c now t = true := by
  unfold query
  rw [List.mem_insertionSort, List.mem_filter]
  simp [and_assoc]

/-- A concrete task used by witnesses: owned by user 1, due at 100. -/
def sampleTask : Task :=
  { id := 1, title := "Ship report", description := none,
    status := Status.todo, priority := Priority.high, due_date := some 100,
    tags := ["urgent", "bug"], project_id := none, owner := 1,
    created_at := 10, updated_at := 10 }

/-- C1: every task returned by `query owner c` has `owner` as its owner;
in particular, for distinct users A and B, querying as A never returns a
task owned by B, whatever criteria (including B's project_id) are
supplied. -/
theorem query_owner_isolation :
    (∀ (owner : Nat) (c : Criteria) (now : Int) (ts : List Task) (t : Task),
        t ∈ query owner c now ts → t.owner = owner)
    ∧ (∀ (A B : Nat) (c : Criteria) (now : Int) (ts : List Task) (t : Task),
        A ≠ B → t ∈ query A c now ts → ¬ t.owner = B) := by
  constructor
  · intro owner c now ts t ht
    exact (mem_query.mp ht).2.1
  · intro A B c now ts t hAB ht hB
    exact hAB ((mem_query.mp ht).2.1 ▸ hB)

/-- C1 witness: a concrete query result element, with the membership
hypothesis discharged by evaluation. -/
theorem query_owner_isolation_witness : sampleTask.owner = 1 :=
  query_owner_isolation.1 1 noCriteria 0 [sampleTask] sampleTask (by decide)

/-- C3: setting two criteria (status and priority) returns exactly the
intersection of the single-criterion queries, and the all-absent criteria
record returns all of the owner's tasks. -/
theorem query_conjunctive_filters :
    ∀ (owner : Nat) (now : Int) (ts : List Task) (s : Status) (p : Priority) (t : Task),
      (t ∈ query owner { noCriteria with status := some s, priority := some p } now ts ↔
        (t ∈ query owner { noCriteria with status := some s } now ts ∧
          t ∈ query owner { noCriteria with priority := some p } now ts))
      ∧ (t ∈ query owner noCriteria now ts ↔ (t ∈ ts ∧ t.owner = owner)) := by
  intro owner now ts s p t
  constructor
  · rw [mem_query, mem_query, mem_query]
    simp only [taskMatches, statusMatch, priorityMatch, projectMatch, tagFilter,
      overdueMatch, searchMatch, noCriteria, List.all_nil, Bool.and_true,
      Bool.true_and, if_false, Bool.and_eq_true, decide_eq_true_eq]
    tauto
  · rw [mem_query]
    simp [taskMatches, statusMatch, priorityMatch, projectMatch, tagFilter,
      overdueMatch, searchMatch, noCriteria]

/-- A concrete task with tag set {urgent, bug}, for the C4 example. -/
def urgentBugTask : Task :=
  { id := 2, title := "Fix crash", description := none,
    status := Status.in_progress, priority := Priority.medium, due_date := none,
    tags := ["urgent", "bug"], project_id := none, owner := 1,
    created_at := 20, updated_at := 20 }

/-- C4: the tags criterion is conjunctive — a task matches a non-empty
required-tag list iff its tag set contains every listed tag; the
{urgent, bug} task matches [urgent] and [urgent, bug] but not
[urgent, docs]. -/
theorem tags_all_match :
    (∀ (req : List String) (t : Task), req ≠ [] →
        (tagFilter req t = true ↔ ∀ tag ∈ req, tag ∈ t.tags))
    ∧ (tagFilter ["urgent"] urgentBugTask = true
        ∧ tagFilter ["urgent", "bug"] urgentBugTask = true
        ∧ tagFilter ["urgent", "docs"] urgentBugTask = false) := by
  constructor
  · intro req t _
    simp [tagFilter, List.all_eq_true]
  · exact ⟨by decide, by decide, by decide⟩

/-- C4 witness: the conjunctive reading instantiated at the example task,
with the non-emptiness hypothesis discharged by evaluation. -/
theorem tags_all_match_witness :
    tagFilter ["urgent", "docs"] urgentBugTask = true ↔
      ∀ tag ∈ ["urgent", "docs"], tag ∈ urgentBugTask.tags :=
  tags_all_match.1 ["urgent", "docs"] urgentBugTask (by decide)

/-- String rendering of a status, as serialized over the HTTP contract
and consumed by the GUI. -/
def statusStr : Status → String
  | Status.todo => "todo"
  | Status.in_progress => "in_progress"
  | Status.done => "done"

/-- Embeds `isOverdue` from
`task-management-gui/src/components/TaskList.jsx` (lines 34-37):
`if (!dueDate || status === 'done') return false;
 return new Date(dueDate) < new Date();`
with the current clock passed explicitly. -/
def isOverdue (dueDate : Option Int) (status : String) (now : Int) : Bool :=
  match dueDate with
  | none => false
  | some d => if status = "done" then false else decide (d < now)

/-- C5: the overdue predicate holds iff the task has a due timestamp
strictly before the evaluation instant and is not done; the GUI's
`isOverdue` agrees with it; and with `overdue = true` the query returns
exactly the overdue tasks among those passing the other criteria. -/
theorem overdue_semantics :
    (∀ (t : Task) (now : Int),
        overdueTask t now = true ↔
          ∃ d, t.due_date = some d ∧ d < now ∧ ¬ t.status = Status.done)
    ∧ (∀ (t : Task) (now : Int),
        isOverdue t.due_date (statusStr t.status) now = overdueTask t now)
    ∧ (∀ (owner : Nat) (c : Criteria) (now : Int) (ts : List Task) (t : Task),
        c.overdue = true →
          (t ∈ query owner c now ts ↔
            (t ∈ query owner { c with overdue := false } now ts
              ∧ overdueTask t now = true))) := by
  refine ⟨?_, ?_, ?_⟩
  · intro t now
    cases h : t.due_date <;> simp [overdueTask, h]
  · intro t now
    cases h : t.due_date <;> cases hs : t.status <;>
      simp [isOverdue, overdueTask, statusStr, h, hs]
  · intro owner c now ts t hc
    rw [mem_query, mem_query]
    simp only [taskMatches, overdueMatch, hc, if_true, Bool.if_false_right,
      Bool.and_true, Bool.and_eq_true, if_false]
    tauto

/-- Criteria selecting only overdue tasks. -/
def overdueCrit : Criteria := { noCriteria with overdue := true }

/-- C5 witness: the query decomposition applied at the concrete overdue
scenario, with the `overdue = true` hypothesis discharged by evaluation. -/
theorem overdue_semantics_witness :
    sampleTask ∈ query 1 overdueCrit 200 [sampleTask] ↔
      (sampleTask ∈ query 1 { overdueCrit with overdue := false } 200 [sampleTask]
        ∧ overdueTask sampleTask 200 = true) :=
  overdue_semantics.2.2 1 overdueCrit 200 [sampleTask] sampleTask rfl

/-- C6: when sorting by due date, a task with a null due date never
precedes a task that has one, for either sort direction. -/
theorem due_date_nulls_last :
    ∀ (owner : Nat) (c : Criteria) (now : Int) (ts : List Task),
      c.sort_by = SortBy.due_date →
      (query owner c now ts).Pairwise
        (fun a b => a.due_date = none → b.due_date = none) := by
  intro owner c now ts hsb
  have hs : List.Sorted (taskLE c.sort_by c.sort_order) (query owner c now ts) := by
    unfold query
    exact List.sorted_insertionSort _ _
  refine List.Pairwise.imp ?_ hs
  intro a b hab ha
  rw [hsb] at hab
  unfold taskLE at hab
  cases hb : b.due_date with
  | none => rfl
  | some d =>
    exfalso
    simp only [sortKey, ha, hb] at hab
    unfold keyLE at hab
    simp at hab

/-- Criteria ordering by due date, ascending. -/
def dueCrit : Criteria :=
  { noCriteria with sort_by := SortBy.due_date, sort_order := SortOrder.asc }

/-- C6 witness: nulls-last on a concrete mixed task list, with the
sort-field hypothesis discharged by evaluation. -/
theorem due_date_nulls_last_witness :
    (query 1 dueCrit 0 [urgentBugTask, sampleTask]).Pairwise
      (fun a b => a.due_date = none → b.due_date = none) :=
  due_date_nulls_last 1 dueCrit 0 [urgentBugTask, sampleTask] rfl

/-- Process-wide token configuration: signing key and time-to-live. -/
structure TokenConfig where
  secret : Nat
  ttl : Int

/-- Modelled from the spec: a stateless signed claim set carrying the
subject and the expiry instant. -/
structure Token where
  subject : Nat
  expires_at : Int
  sig : Nat
deriving DecidableEq

/-- Modelled from the spec: abstract MAC over the claim set with the
process-wide key (stands in for the JWT HS256 signature). -/
def sign (secret subject : Nat) (expires : Int) : Nat :=
  (secret + 1) * (2 * subject + 3) * (2 * expires.natAbs + 5)

/-- Outcome of token validation: a resolved user id, or the single
undifferentiated invalid outcome. -/
inductive ValidateResult where
  | valid (user_id : Nat)
  | invalid
deriving DecidableEq

/-- Modelled from the spec: `issue(user_id, now)` embeds the subject and
`expires_at = now + configured_ttl`, signed with the configured key. -/
def issue (cfg : TokenConfig) (user_id : Nat) (now : Int) : Token :=
  { subject := user_id, expires_at := now + cfg.ttl,
    sig := sign cfg.secret user_id (now + cfg.ttl) }

/-- Modelled from the spec: `validate(token, now)` checks signature
integrity and `now < expires_at`; any failure yields `invalid`. -/
def validate (cfg : TokenConfig) (tok : Token) (now : Int) : ValidateResult :=
  if tok.sig = sign cfg.secret tok.subject tok.expires_at ∧ now < tok.expires_at then
    ValidateResult.valid tok.subject
  else
    ValidateResult.invalid

/-- C2: a freshly issued token validates to the issuing user at any
instant before `now + ttl`, and validates to `invalid` at or after its
`expires_at`. -/
theorem issue_validate_roundtrip :
    ∀ (cfg : TokenConfig) (uid : Nat) (now t : Int),
      (t < now + cfg.ttl →
        validate cfg (issue cfg uid now) t = ValidateResult.valid uid)
      ∧ ((issue cfg uid now).expires_at ≤ t →
        validate cfg (issue cfg uid now) t = ValidateResult.invalid) := by
  intro cfg uid now t
  constructor
  · intro h
    simp [validate, issue, h]
  · intro h
    have h' : ¬ (t < now + cfg.ttl) := by
      simp only [issue] at h
      omega
    simp [validate, issue, h']

/-- A concrete token configuration for the C2 witness. -/
def cfg0 : TokenConfig := { secret := 5, ttl := 30 }

/-- C2 witness: issue at 100 with ttl 30, validate at 105 (valid) and at
130 (expired), hypotheses discharged by evaluation. -/
theorem issue_validate_roundtrip_witness :
    validate cfg0 (issue cfg0 7 100) 105 = ValidateResult.valid 7
    ∧ validate cfg0 (issue cfg0 7 100) 130 = ValidateResult.invalid :=
  ⟨(issue_validate_roundtrip cfg0 7 100 105).1 (by decide),
   (issue_validate_roundtrip cfg0 7 100 130).2 (by decide)⟩

/-- Outcome of the completion transition: the (updated) task, or the
single merged `notFound` outcome for "absent" and "not owned". -/
inductive CompleteResult where
  | ok (t : Task)
  | notFound
deriving DecidableEq

/-- Ownership-qualified lookup key of the completion transition: the task
with this id belonging to this owner. -/
def completeKey (owner tid : Nat) (u : Task) : Bool :=
  decide (u.id = tid) && decide (u.owner = owner)

/-- Modelled from the spec: the state transition applied to the found
task — set status to `done` and refresh the modification timestamp; an
already-done task is left unchanged. -/
def doneTask (t : Task) (now : Int) : Task :=
  if t.status = Status.done then t
  else { t with status := Status.done, updated_at := now }

/-- Modelled from the spec: `complete(owner_id, task_id, now)` over a
task store; returns the outcome together with the resulting store. -/
def complete (owner tid : Nat) (now : Int) (ts : List Task) :
    CompleteResult × List Task :=
  match ts.find? (completeKey owner tid) with
  | none => (CompleteResult.notFound, ts)
  | some t =>
      (CompleteResult.ok (doneTask t now),
        ts.map (fun u => if completeKey owner tid u then doneTask t now else u))

theorem doneTask_id (t : Task) (now : Int) : (doneTask t now).id = t.id := by
  unfold doneTask
  split <;> rfl

theorem doneTask_owner (t : Task) (now : Int) : (doneTask t now).owner = t.owner := by
  unfold doneTask
  split <;> rfl

theorem doneTask_status (t : Task) (now : Int) : (doneTask t now).status = Status.done := by
  unfold doneTask
  split
  · assumption
  · rfl

theorem doneTask_of_done {t : Task} (now : Int) (h : t.status = Status.done) :
    doneTask t now = t := by
  unfold doneTask
  exact if_pos h

theorem completeKey_doneTask (owner tid : Nat) (t : Task) (now : Int) :
    completeKey owner tid (doneTask t now) = completeKey owner tid t := by
  unfold completeKey
  rw [doneTask_id, doneTask_owner]

/-- Two members of a store with pairwise-distinct ids and equal ids are
equal. -/
theorem id_unique :
    ∀ (ts : List Task), ts.Pairwise (fun a b => a.id ≠ b.id) →
      ∀ u ∈ ts, ∀ v ∈ ts, u.id = v.id → u = v := by
  intro ts hp
  induction ts with
  | nil => intro u hu; exact absurd hu (List.not_mem_nil u)
  | cons a rest ih =>
    rw [List.pairwise_cons] at hp
    intro u hu v hv huv
    rcases List.mem_cons.mp hu with rfl | hu' <;>
      rcases List.mem_cons.mp hv with rfl | hv'
    · rfl
    · exact absurd huv (hp.1 v hv')
    · exact absurd huv.symm (hp.1 u hu')
    · exact ih hp.2 u hu' v hv' huv

/-- In a store with pairwise-distinct ids, `find?` with the completion
key locates exactly the matching member. -/
theorem find?_completeKey :
    ∀ (ts : List Task), ts.Pairwise (fun a b => a.id ≠ b.id) →
      ∀ t ∈ ts, completeKey owner tid t = true →
        ts.find? (completeKey owner tid) = some t := by
  intro ts hp
  induction ts with
  | nil => intro t ht; exact absurd ht (List.not_mem_nil t)
  | cons a rest ih =>
    rw [List.pairwise_cons] at hp
    intro t ht hkey
    by_cases ha : completeKey owner tid a = true
    · rw [List.find?_cons_of_pos _ ha]
      rcases List.mem_cons.mp ht with rfl | ht'
      · rfl
      · exfalso
        simp only [completeKey, Bool.and_eq_true, decide_eq_true_eq] at ha hkey
        exact hp.1 t ht' (ha.1.trans hkey.1.symm)
    · rw [List.find?_cons_of_neg _ ha]
      rcases List.mem_cons.mp ht with rfl | ht'
      · exact absurd hkey ha
      · exact ih hp.2 t ht' hkey

/-- C7: completing an already-done owned task succeeds and leaves the
store unchanged, and a second `complete` (at any later instant) on the
resulting store returns the same outcome and the same store as the
first. -/
theorem complete_idempotent :
    (∀ (owner tid : Nat) (now : Int) (ts : List Task) (t : Task),
        ts.Pairwise (fun a b => a.id ≠ b.id) →
        t ∈ ts → t.id = tid → t.owner = owner → t.status = Status.done →
        complete owner tid now ts = (CompleteResult.ok t, ts))
    ∧ (∀ (owner tid : Nat) (now now' : Int) (ts : List Task),
        complete owner tid now' (complete owner tid now ts).2 =
          complete owner tid now ts) := by
  constructor
  · intro owner tid now ts t hp ht hid howner hdone
    have hkey : completeKey owner tid t = true := by
      simp [completeKey, hid, howner]
    have hmap : ts.map (fun u => if completeKey owner tid u then doneTask t now else u)
        = ts := by
      have h1 : ts.map (fun u => if completeKey owner tid u then doneTask t now else u)
          = ts.map id := by
        refine List.map_congr_left ?_
        intro u hu
        simp only [id_eq]
        rw [doneTask_of_done now hdone]
        by_cases hk : completeKey owner tid u = true
        · have hid2 : u.id = t.id := by
            simp only [completeKey, Bool.and_eq_true, decide_eq_true_eq] at hk hkey
            exact hk.1.trans hkey.1.symm
          rw [if_pos hk]
          exact (id_unique ts hp u hu t ht hid2).symm
        · exact if_neg hk
      rw [h1, List.map_id]
    have hstep : complete owner tid now ts =
        (CompleteResult.ok (doneTask t now),
          ts.map (fun u => if completeKey owner tid u then doneTask t now else u)) := by
      unfold complete
      rw [find?_completeKey ts hp t ht hkey]
    rw [hstep, hmap, doneTask_of_done now hdone]
  · intro owner tid now now' ts
    rcases hfind : ts.find? (completeKey owner tid) with _ | t
    · simp only [complete, hfind]
    · have hkey : completeKey owner tid t = true := List.find?_some hfind
      have hcomp : (fun u => completeKey owner tid
          (if completeKey owner tid u then doneTask t now else u)) =
          completeKey owner tid := by
        funext u
        by_cases hk : completeKey owner tid u = true
        · rw [if_pos hk, completeKey_doneTask, hkey, hk]
        · rw [if_neg hk]
      have hfind2 : (ts.map (fun u => if completeKey owner tid u then
          doneTask t now else u)).find? (completeKey owner tid) =
          some (doneTask t now) := by
        rw [List.find?_map]
        simp only [Function.comp_def]
        rw [hcomp, hfind]
        simp [hkey]
      simp only [complete, hfind, hfind2]
      rw [doneTask_of_done now' (doneTask_status t now)]
      refine congrArg _ ?_
      rw [List.map_map]
      refine List.map_congr_left ?_
      intro u hu
      simp only [Function.comp_apply]
      by_cases hk : completeKey owner tid u = true
      · simp [hk]
      · simp [hk]

/-- A concrete already-done task owned by user 1, for the C7 witness. -/
def doneOwnedTask : Task :=
  { id := 3, title := "Archive logs", description := none,
    status := Status.done, priority := Priority.low, due_date := none,
    tags := [], project_id := none, owner := 1,
    created_at := 30, updated_at := 40 }

/-- C7 witness: completing an already-done task at a concrete store,
hypotheses discharged by evaluation. -/
theorem complete_idempotent_witness :
    complete 1 3 200 [doneOwnedTask] = (CompleteResult.ok doneOwnedTask, [doneOwnedTask]) :=
  complete_idempotent.1 1 3 200 [doneOwnedTask] doneOwnedTask
    (by simp) (by simp) rfl rfl rfl

/-- C8: `complete` yields the single `notFound` outcome exactly when no
task with the given id and owner exists — nonexistence and foreign
ownership are the same outcome — and on that failure the store is
unchanged. -/
theorem complete_notFound_merged :
    ∀ (owner tid : Nat) (now : Int) (ts : List Task),
      ((complete owner tid now ts).1 = CompleteResult.notFound ↔
        ∀ t ∈ ts, ¬ (t.id = tid ∧ t.owner = owner))
      ∧ ((complete owner tid now ts).1 = CompleteResult.notFound →
          (complete owner tid now ts).2 = ts) := by
  intro owner tid now ts
  rcases hfind : ts.find? (completeKey owner tid) with _ | t
  · have hfind0 := hfind
    rw [List.find?_eq_none] at hfind
    simp only [complete, hfind0]
    refine ⟨⟨?_, ?_⟩, ?_⟩
    · intro _ t ht hc
      exact hfind t ht (by simp [completeKey, hc.1, hc.2])
    · intro _
      trivial
    · intro _
      trivial
  · have hkey := List.find?_some hfind
    have hmem := List.mem_of_find?_eq_some hfind
    simp only [complete, hfind]
    refine ⟨⟨?_, ?_⟩, ?_⟩
    · intro h
      exact absurd h (by simp)
    · intro h
      exfalso
      refine h t hmem ?_
      simpa [completeKey] using hkey
    · intro h
      exact absurd h (by simp)

/-- A task owned by user 2, used to show the merged ownership failure. -/
def otherOwnerTask : Task :=
  { id := 4, title := "Secret", description := none,
    status := Status.todo, priority := Priority.low, due_date := none,
    tags := [], project_id := none, owner := 2,
    created_at := 50, updated_at := 50 }

/-- C8 witness: user 1 completing user 2's task hits `notFound` and
leaves the store unchanged, hypothesis discharged by evaluation. -/
theorem complete_notFound_merged_witness :
    ((complete 1 4 0 [otherOwnerTask]).1 = CompleteResult.notFound ↔
      ∀ t ∈ [otherOwnerTask], ¬ (t.id = 4 ∧ t.owner = 1))
    ∧ (complete 1 4 0 [otherOwnerTask]).2 = [otherOwnerTask] :=
  ⟨(complete_notFound_merged 1 4 0 [otherOwnerTask]).1,
   (complete_notFound_merged 1 4 0 [otherOwnerTask]).2 (by decide)⟩

/-- Embeds the `filters` state object of the Tasks component
(`src/unnamed/part_001`, lines 14-21): six string-valued fields. -/
structure Filters where
  status : String
  priority : String
  project_id : String
  search : String
  sort_by : String
  sort_order : String

/-- The filters state's key/value entries, in object insertion order
(the order `Object.keys` iterates). -/
def filtersEntries (f : Filters) : List (String × String) :=
  [("status", f.status), ("priority", f.priority), ("project_id", f.project_id),
    ("search", f.search), ("sort_by", f.sort_by), ("sort_order", f.sort_order)]

/-- JavaScript truthiness of a string: truthy iff non-empty. -/
def truthyStr (s : String) : Bool :=
  decide (¬ s = "")

/-- Embeds the `params` construction of `fetchTasks`
(`src/unnamed/part_001`, lines 31-36):
`Object.keys(filters).forEach((key) => { if (filters[key]) params[key] = filters[key]; })`. -/
def fetchParams (f : Filters) : List (String × String) :=
  (filtersEntries f).filter (fun kv => truthyStr kv.2)

/-- C9: the request parameters are exactly the truthy (non-empty) filter
entries; every sent key is one of the six state keys, so an `overdue`
parameter (in particular `overdue=false`) is never sent, and an empty
`project_id` is omitted (no distinct "unassigned" request value). -/
theorem fetchParams_truthy_keys :
    ∀ (f : Filters) (k v : String),
      ((k, v) ∈ fetchParams f ↔ ((k, v) ∈ filtersEntries f ∧ ¬ v = ""))
      ∧ ((k, v) ∈ fetchParams f →
          k ∈ ["status", "priority", "project_id", "search", "sort_by", "sort_order"])
      ∧ (("overdue", v) ∉ fetchParams f)
      ∧ (f.project_id = "" → ("project_id", v) ∉ fetchParams f) := by
  intro f k v
  refine ⟨?_, ?_, ?_, ?_⟩
  · rw [fetchParams, List.mem_filter]
    simp [truthyStr]
  · intro h
    have h1 := (List.mem_filter.mp h).1
    simp only [filtersEntries, List.mem_cons, List.not_mem_nil, or_false,
      Prod.mk.injEq] at h1
    simp only [List.mem_cons, List.not_mem_nil, or_false]
    tauto
  · intro h
    have h1 := (List.mem_filter.mp h).1
    simp [filtersEntries, Prod.mk.injEq] at h1
  · intro hp h
    have h1 := (List.mem_filter.mp h).1
    have h2 := (List.mem_filter.mp h).2
    simp only [filtersEntries, List.mem_cons, List.not_mem_nil, or_false,
      Prod.mk.injEq] at h1
    have hv : v = f.project_id := by
      rcases h1 with ⟨hk, _⟩ | ⟨hk, _⟩ | ⟨_, hv⟩ | ⟨hk, _⟩ | ⟨hk, _⟩ | ⟨hk, _⟩
      · exact absurd hk (by decide)
      · exact absurd hk (by decide)
      · exact hv
      · exact absurd hk (by decide)
      · exact absurd hk (by decide)
      · exact absurd hk (by decide)
    rw [hv, hp] at h2
    simp [truthyStr] at h2

/-- A concrete filters state: only `status` and the sort defaults set. -/
def filtersEx : Filters :=
  { status := "todo", priority := "", project_id := "", search := "",
    sort_by := "created_at", sort_order := "desc" }

/-- C9 witness: the characterization, the absent `overdue` key, and the
omitted empty `project_id` at a concrete filters state, hypotheses
discharged by evaluation. -/
theorem fetchParams_truthy_keys_witness :
    (("status", "todo") ∈ fetchParams filtersEx ↔
      (("status", "todo") ∈ filtersEntries filtersEx ∧ ¬ "todo" = ""))
    ∧ ("overdue", "false") ∉ fetchParams filtersEx
    ∧ ("project_id", "7") ∉ fetchParams filtersEx :=
  ⟨(fetchParams_truthy_keys filtersEx "status" "todo").1,
   (fetchParams_truthy_keys filtersEx "overdue" "false").2.2.1,
   (fetchParams_truthy_keys filtersEx "project_id" "7").2.2.2 rfl⟩

/-- Character-level whitespace trim: drop leading whitespace, then drop
trailing whitespace. -/
def trimChars (l : List Char) : List Char :=
  ((l.dropWhile Char.isWhitespace).reverse.dropWhile Char.isWhitespace).reverse

/-- Embeds the JavaScript string `trim()` used on each tag fragment. -/
def jsTrim (s : String) : String :=
  ⟨trimChars s.data⟩

/-- Embeds JavaScript `split(',')` at the character level: the fragments
between commas; the empty string yields one empty fragment. -/
def splitCommaChars : List Char → List (List Char)
  | [] => [[]]
  | c :: rest =>
      match splitCommaChars rest with
      | [] => [[]]
      | h :: t => if c = ',' then [] :: h :: t else (c :: h) :: t

/-- Embeds `formData.tags.split(',')`. -/
def splitComma (s : String) : List String :=
  (splitCommaChars s.data).map (fun l => ⟨l⟩)

/-- Decimal value of the leading digit run; `none` models `NaN`. -/
def digitsVal (l : List Char) : Option Nat :=
  match l.takeWhile Char.isDigit with
  | [] => none
  | ds => some (ds.foldl (fun acc c => acc * 10 + (c.toNat - 48)) 0)

/-- Embeds JavaScript `parseInt` (base 10) as used on the project select
value: skip whitespace, optional sign, leading digit run. -/
def jsParseInt (s : String) : Option Int :=
  match s.data.dropWhile Char.isWhitespace with
  | '-' :: rest => (digitsVal rest).map (fun n => -(n : Int))
  | '+' :: rest => (digitsVal rest).map (fun n => (n : Int))
  | l => (digitsVal l).map (fun n => (n : Int))

/-- Embeds the form state of `TaskForm.jsx` (lines 4-12): every input
holds a string. -/
structure FormData where
  title : String
  description : String
  status : String
  priority : String
  due_date : String
  tags : String
  project_id : String

/-- The JSON payload shape built by `handleSubmit`; `project_id`'s inner
`Option` models `parseInt` returning `NaN` on a non-numeric string. -/
structure SubmitData where
  title : String
  description : Option String
  status : String
  priority : String
  due_date : Option String
  tags : List String
  project_id : Option (Option Int)

/-- Embeds `handleSubmit` of `TaskForm.jsx` (lines 30-52):
`description: formData.description || null`,
`due_date: formData.due_date || null`,
`tags: formData.tags ? formData.tags.split(',').map((t) => t.trim()).filter(Boolean) : []`,
`project_id: formData.project_id ? parseInt(formData.project_id) : null`. -/
def submitData (f : FormData) : SubmitData :=
  { title := f.title,
    description := if f.description = "" then none else some f.description,
    status := f.status,
    priority := f.priority,
    due_date := if f.due_date = "" then none else some f.due_date,
    tags :=
      if f.tags = "" then []
      else ((splitComma f.tags).map jsTrim).filter truthyStr,
    project_id := if f.project_id = "" then none else some (jsParseInt f.project_id) }

theorem dropWhile_head_not_ws :
    ∀ (l : List Char) (c : Char) (t : List Char),
      l.dropWhile Char.isWhitespace = c :: t → Char.isWhitespace c = false := by
  intro l
  induction l with
  | nil =>
    intro c t h
    simp at h
  | cons a rest ih =>
    intro c t h
    cases hws : Char.isWhitespace a with
    | true =>
      rw [List.dropWhile_cons, if_pos hws] at h
      exact ih c t h
    | false =>
      rw [List.dropWhile_cons, if_neg (by simp [hws])] at h
      injection h with h1 _
      rw [← h1]
      exact hws

theorem trimChars_not_all_ws (l : List Char) (hne : trimChars l ≠ []) :
    (trimChars l).all Char.isWhitespace = false := by
  obtain ⟨pre, hpre⟩ :=
    List.dropWhile_suffix (l := (l.dropWhile Char.isWhitespace).reverse)
      Char.isWhitespace
  rcases hr : trimChars l with _ | ⟨c, r'⟩
  · exact absurd hr hne
  · have hrev : (l.dropWhile Char.isWhitespace).reverse.dropWhile Char.isWhitespace
        = (trimChars l).reverse := by
      unfold trimChars
      rw [List.reverse_reverse]
    rw [hrev] at hpre
    have hsplit : trimChars l ++ pre.reverse = l.dropWhile Char.isWhitespace := by
      have h2 := congrArg List.reverse hpre
      rwa [List.reverse_append, List.reverse_reverse, List.reverse_reverse] at h2
    rw [hr, List.cons_append] at hsplit
    have hc : Char.isWhitespace c = false :=
      dropWhile_head_not_ws l c (r' ++ pre.reverse) hsplit.symm
    rw [List.all_cons, hc]
    rfl

/-- C10: every submitted tag is neither empty nor whitespace-only; an
empty tags input yields the empty list; empty description, due date and
project inputs are submitted as null (`none`) rather than empty
strings. -/
theorem submitData_normalized :
    ∀ (f : FormData),
      (∀ tag ∈ (submitData f).tags, tag.data.all Char.isWhitespace = false)
      ∧ (f.tags = "" → (submitData f).tags = [])
      ∧ ((submitData f).description = none ↔ f.description = "")
      ∧ ((submitData f).due_date = none ↔ f.due_date = "")
      ∧ ((submitData f).project_id = none ↔ f.project_id = "") := by
  intro f
  refine ⟨?_, ?_, ?_, ?_, ?_⟩
  · intro tag htag
    simp only [submitData] at htag
    by_cases hT : f.tags = ""
    · rw [if_pos hT] at htag
      exact absurd htag (List.not_mem_nil tag)
    · rw [if_neg hT, List.mem_filter] at htag
      obtain ⟨hmem, hne⟩ := htag
      rw [List.mem_map] at hmem
      obtain ⟨frag, _, hfrag⟩ := hmem
      subst hfrag
      have hne2 : jsTrim frag ≠ "" := by simpa [truthyStr] using hne
      have hne3 : trimChars frag.data ≠ [] := by
        intro h0
        apply hne2
        show String.mk (trimChars frag.data) = ""
        rw [h0]
      exact trimChars_not_all_ws frag.data hne3
  · intro h
    simp [submitData, h]
  · by_cases h : f.description = "" <;> simp [submitData, h]
  · by_cases h : f.due_date = "" <;> simp [submitData, h]
  · by_cases h : f.project_id = "" <;> simp [submitData, h]

/-- A concrete form state with messy tags input and empty optional
inputs. -/
def formEx : FormData :=
  { title := "T", description := "", status := "todo", priority := "high",
    due_date := "", tags := " urgent, ,bug ", project_id := "" }

/-- C10 witness: the guarantees applied at the concrete form state, with
the membership hypothesis discharged by evaluation. -/
theorem submitData_normalized_witness :
    ("urgent" ∈ (submitData formEx).tags
      ∧ "urgent".data.all Char.isWhitespace = false)
    ∧ ((submitData formEx).description = none ↔ formEx.description = "")
    ∧ ((submitData formEx).project_id = none ↔ formEx.project_id = "") :=
  ⟨⟨by decide, (submitData_normalized formEx).1 "urgent" (by decide)⟩,
   (submitData_normalized formEx).2.2.1,
   (submitData_normalized formEx).2.2.2.2⟩

end TM
